import Mathlib

/-!
A verification development for the nexus repository: a gRPC service registry
(`libnexus/src/registry.rs`, `libnexus/src/server.rs`), the `#[nexus_service]`
derive macro's generated dispatch (`libnexus/nexus-derive/src/lib.rs`), and the
interactive CLI's completion and hint engine (`libnexus/src/cli.rs`).

The embedding is shallow: Rust `HashMap`s become association lists with
insert-replace semantics (iteration order is arbitrary in Rust; every
order-sensitive consumer in the code sorts, so the fixed list order loses
nothing), byte positions become character positions (all inputs of interest
are ASCII), `Result<T>` becomes `Except String T`, and the async runtime
disappears: an RPC round trip is a function argument
`rpc : String → String → Option CommandResponse` where `none` stands for a
transport-level failure.
-/

namespace Nexus

/-! ## Data model (`registry.rs` lines 5-23, proto messages) -/

/-- `ArgInfo` from `registry.rs`: metadata about a single argument. -/
structure ArgInfo where
  name : String
  hint : String
  completer : String
  description : String
deriving DecidableEq

/-- `CommandInfo` from `registry.rs`: metadata about a single command. -/
structure CommandInfo where
  name : String
  args : List ArgInfo
  description : String
deriving DecidableEq

/-- Proto `ArgDef` (same four string fields, mapped one-to-one by the server). -/
structure ArgDef where
  name : String
  hint : String
  completer : String
  description : String
deriving DecidableEq

/-- Proto `CommandDef`. -/
structure CommandDef where
  name : String
  args : List ArgDef
  description : String
deriving DecidableEq

/-- Proto `ServiceInfo`. -/
structure ServiceInfo where
  name : String
  description : String
  commands : List CommandDef
deriving DecidableEq

/-- Proto `CommandResponse`: the `Execute` RPC's reply envelope. -/
structure CommandResponse where
  success : Bool
  message : String
deriving DecidableEq

/-! ## The `#[nexus_service]` macro's generated `Service` impl
(`nexus-derive/src/lib.rs` lines 130-215)

A `#[command]` method with parameters `p0 .. p(k-1)` expands to a match arm
that extracts `args.get(i)` for each `i`, erroring with
`missing argument '<name>' (expected <k> args)` at the first absent index,
and only then invokes the handler body on the bound values. -/

/-- One `#[command]` method: its derived metadata plus the handler body, which
receives exactly the bound argument values. -/
structure CommandImpl where
  info : CommandInfo
  handler : List String → Except String String

/-- A `#[nexus_service]` impl block: the generated `Service` trait impl is
determined by the struct name (lowercased), the impl block's doc comment and
the `#[command]` methods in declaration order. -/
structure Service where
  name : String
  description : String
  cmds : List CommandImpl

/-- Generated `Service::commands`. -/
def Service.commands (s : Service) : List CommandInfo :=
  s.cmds.map (fun c => c.info)

/-- The chain of `args.get(#i).ok_or_else(|| anyhow!("missing argument .."))?`
extractions the macro emits for one command: `params` are the parameters not
yet bound, `i` the index of the next one, `total` the command's declared
parameter count. -/
def bindArgs (total : Nat) (args : List String) : List ArgInfo → Nat → Except String (List String)
  | [], _ => .ok []
  | p :: ps, i =>
    match args.get? i with
    | none =>
      .error ("missing argument '" ++ p.name ++ "' (expected " ++ toString total ++ " args)")
    | some v =>
      match bindArgs total args ps (i + 1) with
      | .ok vs => .ok (v :: vs)
      | .error e => .error e

/-- One generated match arm: bind the arguments positionally, then run the
handler body. -/
def CommandImpl.dispatch (c : CommandImpl) (args : List String) : Except String String :=
  match bindArgs c.info.args.length args c.info.args 0 with
  | .ok vs => c.handler vs
  | .error e => .error e

/-- Generated `Service::execute`: a `match action` over the command names in
declaration order, defaulting to `unknown command '<action>'`. -/
def Service.execute (s : Service) (action : String) (args : List String) : Except String String :=
  match s.cmds.find? (fun c => c.info.name == action) with
  | some c => c.dispatch args
  | none => .error ("unknown command '" ++ action ++ "'")

/-! ## The registry (`registry.rs` lines 42-77) -/

/-- `Registry`: `HashMap<String, Box<dyn Service>>`, as an association list
with the map's insert-replace semantics. -/
def Registry := List (String × Service)

/-- `Registry::new`. -/
def Registry.new : Registry := []

/-- One `HashMap::insert`: replace the value under the matching key (the
first, which under the map's unique-key invariant is the only one),
otherwise add the binding. -/
def insertAssoc {α β : Type} [DecidableEq α] : List (α × β) → α → β → List (α × β)
  | [], k, v => [(k, v)]
  | p :: rest, k, v => if p.1 = k then (k, v) :: rest else p :: insertAssoc rest k v

/-- One `HashMap::get`. -/
def lookupAssoc {α β : Type} [DecidableEq α] (m : List (α × β)) (k : α) : Option β :=
  (m.find? (fun p => p.1 = k)).map (fun p => p.2)

/-- `Registry::register`: `services.insert(service.name().to_string(), service)`. -/
def Registry.register (reg : Registry) (svc : Service) : Registry :=
  insertAssoc reg svc.name svc

/-- Service lookup as `Registry::execute` performs it. -/
def Registry.get? (reg : Registry) (name : String) : Option Service :=
  lookupAssoc reg name

/-- `Registry::execute` (registry.rs lines 58-69). -/
def Registry.execute (reg : Registry) (service action : String) (args : List String) :
    Except String String :=
  match reg.get? service with
  | none => .error ("unknown service '" ++ service ++ "'")
  | some svc => svc.execute action args

/-- `Registry::list_services` (registry.rs lines 71-77). -/
def Registry.listServices (reg : Registry) : List (String × String × List CommandInfo) :=
  reg.map (fun p => (p.1, p.2.description, p.2.commands))

/-- `NexusServer::new().register(s1).register(s2)...`: the registry as built
before `serve` from a sequence of registrations. -/
def buildRegistry (svcs : List Service) : Registry :=
  svcs.foldl Registry.register Registry.new

/-! ## The gRPC layer (`server.rs` lines 70-121) -/

/-- `NexusGrpcService::execute`: both registry outcomes are wrapped into a
normally-completing `CommandResponse`; the `Err(Status)` protocol-level error
path is never taken, so the result is always `.ok`. -/
def grpcExecute (reg : Registry) (service action : String) (args : List String) :
    Except String CommandResponse :=
  match reg.execute service action args with
  | .ok message => .ok { success := true, message := message }
  | .error e => .ok { success := false, message := toString e }

/-- Field-by-field `ArgInfo → ArgDef` mapping from `list_services`. -/
def ArgInfo.toDef (a : ArgInfo) : ArgDef :=
  { name := a.name, hint := a.hint, completer := a.completer, description := a.description }

/-- `NexusGrpcService::list_services`: the registry catalog rendered into
proto messages. -/
def grpcListServices (reg : Registry) : List ServiceInfo :=
  (reg.listServices).map (fun t =>
    { name := t.1
      description := t.2.1
      commands := t.2.2.map (fun c =>
        { name := c.name
          args := c.args.map ArgInfo.toDef
          description := c.description }) })

/-- One `ListServices` RPC against the running server: the handler takes
`&self`, so the reply is paired with the unchanged server state. -/
def grpcListServicesCall (reg : Registry) : List ServiceInfo × Registry :=
  (grpcListServices reg, reg)

/-! ## The CLI helper (`cli.rs` lines 30-274)

Strings are handled as their character lists; `pos` is a character offset
(the Rust code's byte offset, which coincides on ASCII input). -/

/-- `str::split_whitespace` on a character list, with an accumulator holding
the (reversed) characters of the token in progress. -/
def splitWSAux : List Char → List Char → List (List Char)
  | [], acc => if acc.isEmpty then [] else [acc.reverse]
  | c :: cs, acc =>
    if c.isWhitespace then
      (if acc.isEmpty then [] else [acc.reverse]) ++ splitWSAux cs []
    else splitWSAux cs (c :: acc)

/-- `line.split_whitespace().collect::<Vec<&str>>()`. -/
def splitWS (s : List Char) : List String :=
  (splitWSAux s []).map (fun t => ⟨t⟩)

/-- `line.ends_with(' ')` (true only for a nonempty slice whose last character
is a space; Rust checks the single character `' '`, not general whitespace). -/
def endsWithSpace (s : List Char) : Bool :=
  match s.getLast? with
  | some c => c = ' '
  | none => false

/-- `str::trim` on a character list. -/
def trimWS (s : List Char) : List Char :=
  ((s.dropWhile Char.isWhitespace).reverse.dropWhile Char.isWhitespace).reverse

/-- `line.trim()` on a string. -/
def strTrim (s : String) : String :=
  ⟨trimWS s.data⟩

/-- Lexicographic comparison of character lists (the order `str::cmp` gives
on ASCII text), kept structural so closed instances evaluate. -/
def lexLe : List Char → List Char → Bool
  | [], _ => true
  | _ :: _, [] => false
  | a :: as, b :: bs => if a < b then true else if a = b then lexLe as bs else false

/-- `a.cmp(&b).is_le()` on strings. -/
def strLe (a b : String) : Bool :=
  lexLe a.data b.data

/-- `s.starts_with(pfx)`. -/
def strStartsWith (s pfx : String) : Bool :=
  pfx.data.isPrefixOf s.data

/-- `str::split(sep)` on a character list: the pieces between separator
occurrences, empty pieces preserved (so `"".split(sep)` is one empty piece).
-/
def splitChar (sep : Char) : List Char → List (List Char)
  | [] => [[]]
  | c :: cs =>
    if c = sep then [] :: splitChar sep cs
    else
      match splitChar sep cs with
      | t :: ts => (c :: t) :: ts
      | [] => [[c]]

/-- `sort_by(|a, b| a.display.cmp(&b.display))` on candidate lists whose
display and replacement text coincide (as they do in every branch of
`complete`): a stable lexicographic sort of the strings. -/
def sortStrings (l : List String) : List String :=
  List.insertionSort (fun a b : String => strLe a b = true) l

/-- `NexusHelper`'s cached catalog state (`cli.rs` lines 30-41): the gRPC
client and runtime handle become the `rpc` argument threaded into `complete`. -/
structure Helper where
  commands : List (String × List String)
  argInfo : List ((String × String) × List ArgDef)

/-- One iteration of `NexusHelper::from_services`: collect the service's
command names, insert the `(service, command) → args` entries, then insert the
`service → commands` entry. -/
def helperStep (h : Helper) (svc : ServiceInfo) : Helper :=
  let cmds := svc.commands.map (fun c => c.name)
  let ai := svc.commands.foldl
    (fun m cmd => insertAssoc m (svc.name, cmd.name) cmd.args) h.argInfo
  { commands := insertAssoc h.commands svc.name cmds, argInfo := ai }

/-- `NexusHelper::from_services` (cli.rs lines 44-68). -/
def helperFromServices (services : List ServiceInfo) : Helper :=
  services.foldl helperStep ⟨[], []⟩

/-- `NexusHelper::arg_label`: the hint if nonempty, else the parameter name. -/
def argLabel (a : ArgDef) : String :=
  if a.hint.isEmpty then a.name else a.hint

/-- `str::split_once(sep)` on a character list: split at the first occurrence. -/
def splitOnceAux (sep : Char) : List Char → Option (List Char × List Char)
  | [] => none
  | c :: cs =>
    if c = sep then some ([], cs)
    else (splitOnceAux sep cs).map (fun p => (c :: p.1, p.2))

/-- `completer.split_once('.')` and friends. -/
def splitOnce (sep : Char) (s : String) : Option (String × String) :=
  (splitOnceAux sep s.data).map (fun p => (⟨p.1⟩, ⟨p.2⟩))

/-- `NexusHelper::fetch_completions` (cli.rs lines 81-108): resolve the
completer reference, run the zero-argument `Execute` RPC (its transport
failure is `none`), and parse the reply message as a comma-separated list;
every failure path degrades to the empty candidate list. -/
def fetchCompletions (rpc : String → String → Option CommandResponse)
    (completer : String) : List String :=
  match splitOnce '.' completer with
  | none => []
  | some (svc, cmd) =>
    match rpc svc cmd with
    | none => []
    | some resp =>
      (((splitChar ',' resp.message.data).map
          (fun t => (⟨trimWS t⟩ : String))).filter (fun s => !s.isEmpty))

/-- The argument-completion tail of `NexusHelper::complete` (cli.rs lines
196-226), reached when no earlier branch returned. -/
def completeArgs (h : Helper) (rpc : String → String → Option CommandResponse)
    (slice : List Char) (parts : List String) (pos : Nat) : Nat × List String :=
  if 2 ≤ parts.length then
    let service := parts.getD 0 ""
    let command := parts.getD 1 ""
    match lookupAssoc h.argInfo (service, command) with
    | some args =>
      let ip : Nat × String :=
        if endsWithSpace slice then (parts.length - 2, "")
        else (parts.length - 3, (parts.getLast?).getD "")
      match args.get? ip.1 with
      | some argDef =>
        if argDef.completer.isEmpty then (pos, [])
        else
          let values := fetchCompletions rpc argDef.completer
          (pos - ip.2.length, values.filter (fun v => strStartsWith v ip.2))
      | none => (pos, [])
    | none => (pos, [])
  else (pos, [])

/-- `NexusHelper::complete` on the already-sliced line (cli.rs lines 114-227).
The branch structure mirrors the Rust early returns; candidate `Pair`s carry
identical display and replacement text, so a candidate is one string. -/
def completeCore (h : Helper) (rpc : String → String → Option CommandResponse)
    (slice : List Char) (pos : Nat) : Nat × List String :=
  let parts := splitWS slice
  if parts.isEmpty || (parts.length = 1 && !endsWithSpace slice) then
    let pfx := (parts.head?).getD ""
    let services := sortStrings ((h.commands.map (fun p => p.1)).filter
      (fun s => strStartsWith s pfx))
    let builtinPairs := sortStrings (["help", "quit", "exit"].filter
      (fun b => strStartsWith b pfx))
    (pos - pfx.length, services ++ builtinPairs)
  else if (parts.length = 1 || (parts.length = 2 && !endsWithSpace slice))
      && parts.getD 0 "" = "help" then
    let pfx := if parts.length = 2 then parts.getD 1 "" else ""
    (pos - pfx.length, sortStrings ((h.commands.map (fun p => p.1)).filter
      (fun s => strStartsWith s pfx)))
  else if parts.length = 1 || (parts.length = 2 && !endsWithSpace slice) then
    let service := parts.getD 0 ""
    let pfx := if parts.length = 2 then parts.getD 1 "" else ""
    match lookupAssoc h.commands service with
    | some cmds =>
      (pos - pfx.length, sortStrings (cmds.filter (fun c => strStartsWith c pfx)))
    | none => completeArgs h rpc slice parts pos
  else completeArgs h rpc slice parts pos

/-- `NexusHelper::complete`: the first statement shadows `line` with
`&line[..pos]`, so everything downstream sees only the slice. -/
def complete (h : Helper) (rpc : String → String → Option CommandResponse)
    (line : String) (pos : Nat) : Nat × List String :=
  completeCore h rpc (line.data.take pos) pos

/-- Whether every `usize` subtraction `completeArgs` evaluates on this path is
in bounds (`parts.len() - 2`, `parts.len() - 3`, `pos - prefix.len()`). -/
def completeArgsSubOk (h : Helper) (slice : List Char) (parts : List String)
    (pos : Nat) : Bool :=
  if 2 ≤ parts.length then
    match lookupAssoc h.argInfo (parts.getD 0 "", parts.getD 1 "") with
    | some _ =>
      if endsWithSpace slice then 2 ≤ parts.length
      else 3 ≤ parts.length && ((parts.getLast?).getD "").length ≤ pos
    | none => true
  else true

/-- Whether every `usize` subtraction `complete` evaluates on the taken branch
is in bounds; mirrors `completeCore`'s control flow subtraction by
subtraction. -/
def completeSubOk (h : Helper) (line : String) (pos : Nat) : Bool :=
  let slice := line.data.take pos
  let parts := splitWS slice
  if parts.isEmpty || (parts.length = 1 && !endsWithSpace slice) then
    ((parts.head?).getD "").length ≤ pos
  else if (parts.length = 1 || (parts.length = 2 && !endsWithSpace slice))
      && parts.getD 0 "" = "help" then
    (if parts.length = 2 then parts.getD 1 "" else "").length ≤ pos
  else if parts.length = 1 || (parts.length = 2 && !endsWithSpace slice) then
    match lookupAssoc h.commands (parts.getD 0 "") with
    | some _ => (if parts.length = 2 then parts.getD 1 "" else "").length ≤ pos
    | none => completeArgsSubOk h slice parts pos
  else completeArgsSubOk h slice parts pos

/-- `NexusHelper::hint` on the already-sliced line (cli.rs lines 233-269).
The write to `last_input_len` is a side effect on rendering state only and
does not influence the returned hint. -/
def hintCore (h : Helper) (slice : List Char) : Option String :=
  let parts := splitWS slice
  if parts.length < 2 then none
  else
    match lookupAssoc h.argInfo (parts.getD 0 "", parts.getD 1 "") with
    | none => none
    | some args =>
      let hintStart := parts.length - 2
      let remaining := (args.drop hintStart).map (fun a => "<" ++ argLabel a ++ ">")
      if remaining.isEmpty then none
      else if endsWithSpace slice then some (String.intercalate " " remaining)
      else some (" " ++ String.intercalate " " remaining)

/-- `NexusHelper::hint`: as with `complete`, `line` is immediately shadowed by
`&line[..pos]`. -/
def hint (h : Helper) (line : String) (pos : Nat) : Option String :=
  hintCore h (line.data.take pos)

/-! ## The interactive loop's per-line dispatch (`cli.rs` lines 344-382) -/

/-- What `NexusCli::run` does with one submitted line. -/
inductive LoopStep where
  | ignore : LoopStep
  | terminate : LoopStep
  | helpAll : LoopStep
  | helpService (name : String) : LoopStep
  | usage : LoopStep
  | executeRpc (service action : String) (args : List String) : LoopStep
deriving DecidableEq

/-- The body of `NexusCli::run`'s read loop for one line: trim, skip empty
lines, recognize the builtins, and otherwise split into
`(service, action, args)` for an `Execute` RPC. -/
def processLine (input : String) : LoopStep :=
  let line : String := strTrim input
  if line.isEmpty then .ignore
  else if line = "quit" || line = "exit" then .terminate
  else
    let parts := splitWS line.data
    if parts.getD 0 "" = "help" then
      if 2 ≤ parts.length then .helpService (parts.getD 1 "") else .helpAll
    else if parts.length < 2 then .usage
    else .executeRpc (parts.getD 0 "") (parts.getD 1 "") (parts.drop 2)

/-! ## The storage daemon's example services
(`storage-daemon/src/services/volume.rs`, `block.rs`), as the
`#[nexus_service]` macro expands them: service name = struct name lowercased,
service description = the impl block's doc comment (absent here), commands in
declaration order with their `#[arg(...)]` metadata. -/

/-- `Volume::create` as one `#[command]` method: two parameters with their
`#[arg(...)]` hints, the second carrying the `block.list` completer. -/
def volumeCreateImpl : CommandImpl :=
  { info :=
      { name := "create"
        args :=
          [ { name := "name", hint := "volume name", completer := "", description := "" }
          , { name := "disk", hint := "device", completer := "block.list", description := "" } ]
        description := "Create a new volume on the specified disk." }
    handler := fun vs =>
      .ok ("Volume '" ++ vs.getD 0 "" ++ "' created on disk '" ++ vs.getD 1 "" ++ "'") }

/-- The `Volume` service. -/
def volumeService : Service :=
  { name := "volume"
    description := ""
    cmds :=
      [ volumeCreateImpl
      , { info :=
            { name := "delete"
              args := [ { name := "name", hint := "", completer := "", description := "" } ]
              description := "Delete an existing volume." }
          handler := fun vs => .ok ("Volume '" ++ vs.getD 0 "" ++ "' deleted") }
      , { info :=
            { name := "list", args := [], description := "List all volumes." }
          handler := fun _ => .ok "vol0, vol1, vol2" } ] }

/-- The `Block` service. -/
def blockService : Service :=
  { name := "block"
    description := ""
    cmds :=
      [ { info :=
            { name := "list", args := [], description := "List all block devices." }
          handler := fun _ => .ok "sda, sdb, sdc, nvme0n1" }
      , { info :=
            { name := "info"
              args := [ { name := "device", hint := "", completer := "", description := "" } ]
              description := "Show info for a block device." }
          handler := fun vs =>
            .ok ("Block device '" ++ vs.getD 0 "" ++ "': size=500G, type=SSD") } ] }

/-- A daemon registry holding the two example services. -/
def fixtureRegistry : Registry :=
  buildRegistry [volumeService, blockService]

/-- The catalog the CLI fetches at startup from that daemon. -/
def fixtureCatalog : List ServiceInfo :=
  grpcListServices fixtureRegistry

/-- The CLI helper state built from that catalog. -/
def fixtureHelper : Helper :=
  helperFromServices fixtureCatalog

/-- A live transport to a registry: the completer's `Execute` RPC reaches the
server and returns its (always normally-completing) response. -/
def rpcOf (reg : Registry) : String → String → Option CommandResponse :=
  fun svc act =>
    match grpcExecute reg svc act [] with
    | .ok r => some r
    | .error _ => none

/-- A dead transport: every RPC fails at the transport level. -/
def rpcDown : String → String → Option CommandResponse :=
  fun _ _ => none

/-- The token the cursor is on in the first-word branch of `complete`:
the first whitespace-separated token of the slice, or `""` when there is
none. -/
def headToken (line : String) (pos : Nat) : String :=
  ((splitWS (line.data.take pos)).head?).getD ""

/-- Whether the slice does not end in a whitespace character (so the cursor
is still inside the final token rather than past it). -/
def lastNotWhitespace (s : List Char) : Bool :=
  match s.getLast? with
  | some c => !c.isWhitespace
  | none => true

/-- Two services sharing the name `dup`, distinguishable by description. -/
def dupFirst : Service :=
  { name := "dup", description := "first", cmds := [] }

/-- The second registration under the name `dup`. -/
def dupSecond : Service :=
  { name := "dup", description := "second", cmds := [] }

/-! ## Association-map lemmas shared by the proofs -/

theorem lookupAssoc_insertAssoc_self {α β : Type} [DecidableEq α]
    (m : List (α × β)) (k : α) (v : β) :
    lookupAssoc (insertAssoc m k v) k = some v := by
  induction m with
  | nil => simp [insertAssoc, lookupAssoc, List.find?]
  | cons p rest ih =>
    by_cases hp : p.1 = k
    · simp [insertAssoc, hp, lookupAssoc, List.find?]
    · simpa [insertAssoc, hp, lookupAssoc, List.find?] using ih

theorem map_fst_insertAssoc {α β : Type} [DecidableEq α]
    (m : List (α × β)) (k : α) (v : β) :
    (insertAssoc m k v).map Prod.fst =
      if k ∈ m.map Prod.fst then m.map Prod.fst else m.map Prod.fst ++ [k] := by
  induction m with
  | nil => simp [insertAssoc]
  | cons p rest ih =>
    by_cases hp : p.1 = k
    · simp [insertAssoc, hp]
    · have hk : ¬ k = p.1 := fun h => hp h.symm
      by_cases hm : k ∈ rest.map Prod.fst <;>
        simp [insertAssoc, hp, hk, hm, ih]

theorem nodup_map_fst_insertAssoc {α β : Type} [DecidableEq α]
    (m : List (α × β)) (k : α) (v : β) (h : (m.map Prod.fst).Nodup) :
    ((insertAssoc m k v).map Prod.fst).Nodup := by
  rw [map_fst_insertAssoc]
  by_cases hm : k ∈ m.map Prod.fst
  · simpa [hm] using h
  · simp [hm, List.nodup_append, h]

theorem lookupAssoc_isSome_iff {α β : Type} [DecidableEq α]
    (m : List (α × β)) (k : α) :
    (lookupAssoc m k).isSome = true ↔ k ∈ m.map Prod.fst := by
  induction m with
  | nil => simp [lookupAssoc, List.find?]
  | cons p rest ih =>
    by_cases hp : p.1 = k
    · simp [lookupAssoc, List.find?, hp]
    · have hk : ¬ k = p.1 := fun h => hp h.symm
      simpa [lookupAssoc, List.find?, hp, hk] using ih

/-! ## C4 -/

/-- C4: the claim says a second registration under an already-registered name
is rejected; in fact `Registry::register` is a plain `HashMap::insert`, so the
second implementation silently replaces the first. -/
theorem c4_counterexample :
    (Registry.get? (Registry.register (Registry.register Registry.new dupFirst) dupSecond)
        "dup").map (fun s => s.description) = some "second" ∧
    ("second" : String) ≠ "first" := by
  exact ⟨rfl, by decide⟩

/-- C4 (amended): each service name is bound to at most one implementation
(the registry's key list stays duplicate-free however registration is
sequenced), but a second registration under an already-registered name
silently replaces the first (last-registration-wins) instead of being
rejected; registration happens before serving begins. -/
theorem c4_register_last_wins :
    (∀ svcs : List Service, ((buildRegistry svcs).map Prod.fst).Nodup) ∧
    (∀ (reg : Registry) (s : Service),
        Registry.get? (Registry.register reg s) s.name = some s) := by
  constructor
  · have aux : ∀ (svcs : List Service) (reg : Registry),
        (List.map Prod.fst reg).Nodup →
        ((svcs.foldl Registry.register reg).map Prod.fst).Nodup := by
      intro svcs
      induction svcs with
      | nil => intro reg h; simpa using h
      | cons s rest ih =>
        intro reg h
        exact ih (Registry.register reg s) (nodup_map_fst_insertAssoc reg s.name s h)
    intro svcs
    exact aux svcs Registry.new (by simp [Registry.new])
  · intro reg s
    exact lookupAssoc_insertAssoc_self reg s.name s

/-! ## C2 -/

/-- C2: the claim asserts the hint for `"volume create "` is `"<device>"`; in
fact with zero typed arguments the hint lists both remaining placeholders. -/
theorem c2_counterexample :
    hint fixtureHelper "volume create " 14 = some "<volume name> <device>" ∧
    some "<volume name> <device>" ≠ some "<device>" := by
  exact ⟨by decide, by decide⟩

/-- C2 (amended): for `"volume create "` the inline hint shows every
remaining argument, `"<volume name> <device>"`; for `"volume create myvol "`
it advances to show only the remaining argument, `"<device>"`. -/
theorem c2_hint_progression :
    hint fixtureHelper "volume create " 14 = some "<volume name> <device>" ∧
    hint fixtureHelper "volume create myvol " 20 = some "<device>" := by
  exact ⟨by decide, by decide⟩

/-! ## C3 -/

/-- C3: with the `disk` argument's completer `"block.list"` and a live server
whose `block.list` reply is `"sda, sdb, sdc, nvme0n1"`, completing
`"volume create myvol sd"` yields exactly `["sda", "sdb", "sdc"]` in server
order with start offset `cursor - 2`; a malformed reference (no dot) or a
transport failure yields the empty candidate list with no error surfaced. -/
theorem c3_completer_round_trip :
    complete fixtureHelper (rpcOf fixtureRegistry) "volume create myvol sd" 22
      = (20, ["sda", "sdb", "sdc"]) ∧
    grpcExecute fixtureRegistry "block" "list" []
      = .ok { success := true, message := "sda, sdb, sdc, nvme0n1" } ∧
    fetchCompletions (rpcOf fixtureRegistry) "malformed" = [] ∧
    (∀ completer : String, fetchCompletions rpcDown completer = []) ∧
    complete fixtureHelper rpcDown "volume create myvol sd" 22 = (20, []) := by
  refine ⟨by decide, rfl, by decide, ?_, by decide⟩
  intro completer
  cases h : splitOnce '.' completer with
  | none => simp [fetchCompletions, h]
  | some p => simp [fetchCompletions, h, rpcDown]

/-! ## C9 -/

/-- C9: `complete` and `hint` both begin by shadowing the line with
`&line[..pos]`, so their results depend only on the text before the cursor:
two lines agreeing on their first `pos` characters give the same start offset
and candidates (against the same transport) and the same hint. -/
theorem c9_cursor_prefix_determines (h : Helper)
    (rpc : String → String → Option CommandResponse)
    (line1 line2 : String) (pos : Nat)
    (hagree : line1.data.take pos = line2.data.take pos) :
    complete h rpc line1 pos = complete h rpc line2 pos ∧
    hint h line1 pos = hint h line2 pos := by
  unfold complete hint
  rw [hagree]
  exact ⟨rfl, rfl⟩

/-- C9 witness: two lines differing only at and after the cursor. -/
theorem c9_witness :
    complete fixtureHelper rpcDown "volume ax" 7 = complete fixtureHelper rpcDown "volume by" 7 ∧
    hint fixtureHelper "volume ax" 7 = hint fixtureHelper "volume by" 7 :=
  c9_cursor_prefix_determines fixtureHelper rpcDown "volume ax" "volume by" 7 (by decide)

/-! ## C10 -/

/-- C10: the interactive loop recognizes `quit`/`exit` only as whole trimmed
lines — `"quit now"` is dispatched over RPC as service `quit`, action `now` —
while `help` is a builtin whenever it is the first token. -/
theorem c10_builtin_dispatch :
    (∀ input : String,
        processLine input = .terminate ↔
          (strTrim input = "quit" ∨ strTrim input = "exit")) ∧
    processLine "quit now" = .executeRpc "quit" "now" [] ∧
    (∀ input : String,
        (splitWS (strTrim input).data).getD 0 "" = "help" →
          processLine input = .helpAll ∨ ∃ s, processLine input = .helpService s) := by
  refine ⟨?_, by decide, ?_⟩
  · intro input
    constructor
    · intro hterm
      by_cases h0 : (strTrim input).isEmpty
      · simp [processLine, h0] at hterm
      · by_cases hq : strTrim input = "quit"
        · exact Or.inl hq
        · by_cases he : strTrim input = "exit"
          · exact Or.inr he
          · exfalso
            simp only [processLine, h0, hq, he] at hterm
            simp at hterm
            split at hterm <;> (try split at hterm) <;> simp_all
    · intro hcase
      rcases hcase with hq | he
      · simp [processLine, hq]
        decide
      · simp [processLine, he]
        decide
  · intro input hhelp
    by_cases h0 : (strTrim input).isEmpty
    · rw [String.isEmpty_iff] at h0
      rw [h0] at hhelp
      exact absurd hhelp (by decide)
    · by_cases hq : strTrim input = "quit"
      · rw [hq] at hhelp
        exact absurd hhelp (by decide)
      · by_cases he : strTrim input = "exit"
        · rw [he] at hhelp
          exact absurd hhelp (by decide)
        · simp only [List.getD_eq_getElem?_getD] at hhelp
          by_cases hlen : 2 ≤ (splitWS (strTrim input).data).length
          · right
            refine ⟨(splitWS (strTrim input).data).getD 1 "", ?_⟩
            simp [processLine, h0, hq, he, hhelp, hlen]
          · left
            simp [processLine, h0, hq, he, hhelp, hlen]

/-! ## Argument-binding lemmas for the generated dispatch -/

theorem bindArgs_error_of_lt (params : List ArgInfo) (total : Nat) :
    ∀ (i : Nat) (args : List String) (p : ArgInfo),
      i ≤ args.length → args.length < i + params.length →
      params.get? (args.length - i) = some p →
      bindArgs total args params i =
        .error ("missing argument '" ++ p.name ++ "' (expected " ++ toString total ++ " args)") := by
  induction params with
  | nil =>
    intro i args p hi hlt hget
    simp at hget
  | cons q ps ih =>
    intro i args p hi hlt hget
    simp only [List.length_cons] at hlt
    rcases Nat.lt_or_ge i args.length with hlt' | hge
    · obtain ⟨v, hv⟩ : ∃ v, args[i]? = some v := by
        cases h : args[i]? with
        | none => rw [List.getElem?_eq_none_iff] at h; omega
        | some v => exact ⟨v, rfl⟩
      have hsub : args.length - i = (args.length - (i + 1)) + 1 := by omega
      rw [hsub] at hget
      simp only [List.get?_cons_succ] at hget
      have hrec := ih (i + 1) args p (by omega) (by omega) hget
      simp [bindArgs, hv, hrec]
    · have hnone : args[i]? = none := by rw [List.getElem?_eq_none_iff]; omega
      have h0 : args.length - i = 0 := by omega
      rw [h0] at hget
      simp only [List.get?_cons_zero, Option.some.injEq] at hget
      subst hget
      simp [bindArgs, hnone]

theorem bindArgs_ok (params : List ArgInfo) (total : Nat) :
    ∀ (i : Nat) (args : List String), i + params.length ≤ args.length →
      bindArgs total args params i = .ok ((args.drop i).take params.length) := by
  induction params with
  | nil => intro i args h; simp [bindArgs]
  | cons q ps ih =>
    intro i args h
    simp only [List.length_cons] at h
    have hi : i < args.length := by omega
    have hv : args[i]? = some args[i] := List.getElem?_eq_getElem hi
    have hrec := ih (i + 1) args (by omega)
    simp [bindArgs, hv, hrec]
    rw [List.drop_eq_getElem_cons hi, List.take_cons]
    · simp
    · omega

/-! ## C1 -/

/-- C1: the three validation failures of `Execute` all complete the RPC
normally (the result is `.ok`, never a protocol-level error) with
`success = false` and the exact message the dispatch layer formats: an
unregistered service, an action matching none of the service's commands, and
an argument list shorter than the declared parameter count, whose message
names the first unbound parameter (the one at index `args.length`) and the
declared count. In each case the conclusion is independent of every handler
in the registry, so no handler body is invoked. -/
theorem c1_validation_failures (reg : Registry) (service action : String) (args : List String) :
    (reg.get? service = none →
      grpcExecute reg service action args =
        .ok { success := false, message := "unknown service '" ++ service ++ "'" }) ∧
    (∀ s : Service, reg.get? service = some s →
      s.cmds.find? (fun c => c.info.name == action) = none →
      grpcExecute reg service action args =
        .ok { success := false, message := "unknown command '" ++ action ++ "'" }) ∧
    (∀ (s : Service) (c : CommandImpl) (p : ArgInfo), reg.get? service = some s →
      s.cmds.find? (fun c => c.info.name == action) = some c →
      args.length < c.info.args.length →
      c.info.args.get? args.length = some p →
      grpcExecute reg service action args =
        .ok { success := false
              message := "missing argument '" ++ p.name ++ "' (expected " ++
                toString c.info.args.length ++ " args)" }) := by
  refine ⟨?_, ?_, ?_⟩
  · intro hnone
    simp only [grpcExecute, Registry.execute, hnone]
    rfl
  · intro s hs hfind
    simp only [grpcExecute, Registry.execute, hs, Service.execute, hfind]
    rfl
  · intro s c p hs hc hlen hp
    have herr := bindArgs_error_of_lt c.info.args c.info.args.length 0 args p
      (Nat.zero_le _) (by omega) (by simpa using hp)
    simp only [grpcExecute, Registry.execute, hs, Service.execute, hc,
      CommandImpl.dispatch, herr]
    rfl

/-- C1 witness: the missing-argument path at a concrete call,
`volume create` with a single argument. -/
theorem c1_witness :
    grpcExecute fixtureRegistry "volume" "create" ["only"] =
      .ok { success := false, message := "missing argument 'disk' (expected 2 args)" } :=
  (c1_validation_failures fixtureRegistry "volume" "create" ["only"]).2.2
    volumeService volumeCreateImpl ⟨"disk", "device", "block.list", ""⟩
    rfl rfl (by decide) rfl

/-! ## C5 -/

/-- C5: for a command declaring `k` parameters and more than `k` arguments,
the generated dispatch binds exactly the first `k` (the bound values are
`args.take k`) and `Execute` returns the same result as with the argument
list truncated to its first `k` elements: trailing extras are ignored and
cause no error. -/
theorem c5_extra_args_ignored (reg : Registry) (service action : String) (args : List String)
    (s : Service) (c : CommandImpl)
    (hs : reg.get? service = some s)
    (hc : s.cmds.find? (fun d => d.info.name == action) = some c)
    (hlen : c.info.args.length < args.length) :
    bindArgs c.info.args.length args c.info.args 0 = .ok (args.take c.info.args.length) ∧
    Registry.execute reg service action args =
      Registry.execute reg service action (args.take c.info.args.length) := by
  have h1 := bindArgs_ok c.info.args c.info.args.length 0 args (by omega)
  have h2 := bindArgs_ok c.info.args c.info.args.length 0 (args.take c.info.args.length)
    (by simp; omega)
  have h3 : (args.take c.info.args.length).take c.info.args.length =
      args.take c.info.args.length := by
    simp [List.take_take]
  rw [List.drop_zero] at h1 h2
  rw [h3] at h2
  refine ⟨h1, ?_⟩
  simp only [Registry.execute, hs, Service.execute, hc, CommandImpl.dispatch, h1, h2]

/-- C5 witness: `volume create` with three arguments behaves as with the
first two. -/
theorem c5_witness :
    bindArgs 2 ["a", "b", "c"] volumeCreateImpl.info.args 0 = .ok ["a", "b"] ∧
    Registry.execute fixtureRegistry "volume" "create" ["a", "b", "c"] =
      Registry.execute fixtureRegistry "volume" "create" ["a", "b"] :=
  c5_extra_args_ignored fixtureRegistry "volume" "create" ["a", "b", "c"]
    volumeService volumeCreateImpl rfl rfl (by decide)

/-! ## C7 -/

theorem map_fst_register_of_not_mem (reg : Registry) (s : Service)
    (h : s.name ∉ List.map Prod.fst reg) :
    List.map Prod.fst (Registry.register reg s) = List.map Prod.fst reg ++ [s.name] := by
  rw [Registry.register, map_fst_insertAssoc]
  simp [h]

theorem map_fst_buildRegistry (svcs : List Service) (h : (svcs.map Service.name).Nodup) :
    List.map Prod.fst (buildRegistry svcs) = svcs.map Service.name := by
  suffices aux : ∀ (l : List Service) (reg : Registry),
      (List.map Prod.fst reg ++ l.map Service.name).Nodup →
      List.map Prod.fst (l.foldl Registry.register reg) =
        List.map Prod.fst reg ++ l.map Service.name by
    simpa [buildRegistry, Registry.new] using aux svcs [] (by simpa using h)
  intro l
  induction l with
  | nil => intro reg _; simp
  | cons s rest ih =>
    intro reg hnd
    have hs : s.name ∉ List.map Prod.fst reg := by
      rw [List.nodup_append] at hnd
      intro hmem
      exact hnd.2.2 hmem (List.mem_cons_self _ _)
    rw [List.foldl_cons, ih (Registry.register reg s)
      (by rw [map_fst_register_of_not_mem reg s hs, ← List.append_cons]; exact hnd)]
    rw [map_fst_register_of_not_mem reg s hs]
    simp

theorem grpcListServices_names (reg : Registry) :
    (grpcListServices reg).map (fun s => s.name) = List.map Prod.fst reg := by
  simp only [grpcListServices, Registry.listServices, List.map_map]
  rfl

/-- C7: for a registry built from services with pairwise-distinct names, the
catalog has exactly one entry per registered name, and a second
`ListServices` call against the (unchanged, `&self`-borrowed) server state
returns the identical catalog. -/
theorem c7_catalog_one_entry_per_service (svcs : List Service)
    (h : (svcs.map Service.name).Nodup) :
    (grpcListServices (buildRegistry svcs)).map (fun s => s.name) = svcs.map Service.name ∧
    (∀ n ∈ svcs.map Service.name,
        ((grpcListServices (buildRegistry svcs)).map (fun s => s.name)).count n = 1) ∧
    (grpcListServicesCall (buildRegistry svcs)).1 =
      (grpcListServicesCall ((grpcListServicesCall (buildRegistry svcs)).2)).1 ∧
    (grpcListServicesCall (buildRegistry svcs)).2 = buildRegistry svcs := by
  have hnames : (grpcListServices (buildRegistry svcs)).map (fun s => s.name) =
      svcs.map Service.name := by
    rw [grpcListServices_names, map_fst_buildRegistry svcs h]
  refine ⟨hnames, ?_, rfl, rfl⟩
  intro n hn
  rw [hnames]
  exact List.count_eq_one_of_mem h hn

/-- C7 witness: the two-service fixture registry lists exactly its two
services. -/
theorem c7_witness :
    (grpcListServices (buildRegistry [volumeService, blockService])).map (fun s => s.name) =
      ["volume", "block"] :=
  (c7_catalog_one_entry_per_service [volumeService, blockService] (by decide)).1

/-! ## C6 -/

theorem lexLe_total : ∀ as bs : List Char, lexLe as bs = true ∨ lexLe bs as = true := by
  intro as
  induction as with
  | nil => intro bs; left; simp [lexLe]
  | cons a as ih =>
    intro bs
    cases bs with
    | nil => right; simp [lexLe]
    | cons b bs =>
      rcases lt_trichotomy a b with hab | hab | hab
      · left; simp [lexLe, hab]
      · subst hab
        rcases ih bs with hr | hr
        · left; simp [lexLe, hr]
        · right; simp [lexLe, hr]
      · right; simp [lexLe, hab]

theorem lexLe_trans : ∀ as bs cs : List Char,
    lexLe as bs = true → lexLe bs cs = true → lexLe as cs = true := by
  intro as
  induction as with
  | nil => intro bs cs _ _; simp [lexLe]
  | cons a as ih =>
    intro bs cs h1 h2
    cases bs with
    | nil => simp [lexLe] at h1
    | cons b bs =>
      cases cs with
      | nil => simp [lexLe] at h2
      | cons c cs =>
        by_cases hab : a < b
        · by_cases hbc : b < c
          · simp [lexLe, lt_trans hab hbc]
          · by_cases hbc' : b = c
            · subst hbc'; simp [lexLe, hab]
            · simp [lexLe, hbc, hbc'] at h2
        · by_cases hab' : a = b
          · subst hab'
            by_cases hac : a < c
            · simp [lexLe, hac]
            · by_cases hac' : a = c
              · subst hac'
                simp only [lexLe, lt_irrefl, if_false, if_pos rfl] at h1 h2 ⊢
                exact ih bs cs h1 h2
              · simp [lexLe, hac, hac'] at h2
          · simp [lexLe, hab, hab'] at h1

instance : IsTotal String (fun a b => strLe a b = true) :=
  ⟨fun a b => lexLe_total a.data b.data⟩

instance : IsTrans String (fun a b => strLe a b = true) :=
  ⟨fun a b c => lexLe_trans a.data b.data c.data⟩

/-- C6: when the slice before the cursor holds no token, or exactly one token
with the cursor still inside it (no trailing whitespace), `complete` replaces
from `cursor - len(prefix)` and offers the prefix-matching cached service
names sorted lexicographically, followed by the prefix-matching builtins
among `help`, `quit`, `exit` sorted lexicographically (each sorted block is a
permutation of the corresponding filtered set). -/
theorem c6_first_token_completion (h : Helper)
    (rpc : String → String → Option CommandResponse) (line : String) (pos : Nat)
    (hcond : splitWS (line.data.take pos) = [] ∨
      ((splitWS (line.data.take pos)).length = 1 ∧
        lastNotWhitespace (line.data.take pos) = true)) :
    complete h rpc line pos =
      (pos - (headToken line pos).length,
        sortStrings ((h.commands.map (fun p => p.1)).filter
          (fun s => strStartsWith s (headToken line pos))) ++
        sortStrings (["help", "quit", "exit"].filter
          (fun b => strStartsWith b (headToken line pos)))) ∧
    (sortStrings ((h.commands.map (fun p => p.1)).filter
        (fun s => strStartsWith s (headToken line pos)))).Sorted
      (fun a b => strLe a b = true) ∧
    (sortStrings ((h.commands.map (fun p => p.1)).filter
        (fun s => strStartsWith s (headToken line pos)))).Perm
      ((h.commands.map (fun p => p.1)).filter (fun s => strStartsWith s (headToken line pos))) ∧
    (sortStrings (["help", "quit", "exit"].filter
        (fun b => strStartsWith b (headToken line pos)))).Sorted
      (fun a b => strLe a b = true) ∧
    (sortStrings (["help", "quit", "exit"].filter
        (fun b => strStartsWith b (headToken line pos)))).Perm
      (["help", "quit", "exit"].filter (fun b => strStartsWith b (headToken line pos))) := by
  refine ⟨?_, List.sorted_insertionSort _ _, List.perm_insertionSort _ _,
    List.sorted_insertionSort _ _, List.perm_insertionSort _ _⟩
  rcases hcond with hnil | ⟨hone, hlast⟩
  · simp [complete, completeCore, headToken, hnil]
  · have hends : endsWithSpace (line.data.take pos) = false := by
      unfold endsWithSpace
      unfold lastNotWhitespace at hlast
      cases hL : (line.data.take pos).getLast? with
      | none => simp
      | some ch =>
        rw [hL] at hlast
        simp only [Bool.not_eq_true'] at hlast
        simp only [decide_eq_false_iff_not]
        intro hch
        subst hch
        exact absurd hlast (by decide)
    simp [complete, completeCore, headToken, hone, hends]

/-- C6 witness: line `vol`, cursor at its end. -/
theorem c6_witness :
    complete fixtureHelper rpcDown "vol" 3 = (0, ["volume"]) :=
  (c6_first_token_completion fixtureHelper rpcDown "vol" 3
    (Or.inr ⟨by decide, by decide⟩)).1

/-! ## C8 -/

theorem length_mem_splitWSAux : ∀ (s acc t : List Char),
    t ∈ splitWSAux s acc → t.length ≤ s.length + acc.length := by
  intro s
  induction s with
  | nil =>
    intro acc t ht
    by_cases hacc : acc.isEmpty
    · simp [splitWSAux, hacc] at ht
    · simp only [splitWSAux, hacc, if_false, Bool.false_eq_true, List.mem_singleton] at ht
      subst ht
      simp
  | cons c cs ih =>
    intro acc t ht
    by_cases hc : c.isWhitespace
    · simp only [splitWSAux, hc, if_true] at ht
      rcases List.mem_append.mp ht with hl | hr
      · by_cases hacc : acc.isEmpty
        · simp [hacc] at hl
        · simp only [hacc, if_false, Bool.false_eq_true, List.mem_singleton] at hl
          subst hl
          simp only [List.length_reverse, List.length_cons]
          omega
      · have := ih [] t hr
        simp only [List.length_nil, List.length_cons] at this ⊢
        omega
    · simp only [splitWSAux, hc, if_false, Bool.false_eq_true] at ht
      have := ih (c :: acc) t ht
      simp only [List.length_cons] at this ⊢
      omega

theorem length_mem_splitWS (s : List Char) (t : String) (ht : t ∈ splitWS s) :
    t.length ≤ s.length := by
  simp only [splitWS, List.mem_map] at ht
  obtain ⟨u, hu, rfl⟩ := ht
  have := length_mem_splitWSAux s [] u hu
  simpa [String.length] using this

theorem mem_map_fst_insertAssoc {α β : Type} [DecidableEq α]
    (m : List (α × β)) (k a : α) (v : β) :
    a ∈ (insertAssoc m k v).map Prod.fst ↔ a = k ∨ a ∈ m.map Prod.fst := by
  rw [map_fst_insertAssoc]
  by_cases hk : k ∈ m.map Prod.fst
  · simp only [hk, if_true]
    constructor
    · exact Or.inr
    · rintro (rfl | hmem)
      · exact hk
      · exact hmem
  · simp [hk, or_comm]

theorem mem_argInfo_foldl (svc : ServiceInfo) :
    ∀ (cmds : List CommandDef) (m : List ((String × String) × List ArgDef))
      (sc : String × String),
      sc ∈ (cmds.foldl (fun m cmd => insertAssoc m (svc.name, cmd.name) cmd.args) m).map
          Prod.fst ↔
        sc ∈ cmds.map (fun cmd => (svc.name, cmd.name)) ∨ sc ∈ m.map Prod.fst := by
  intro cmds
  induction cmds with
  | nil => intro m sc; simp
  | cons cmd rest ih =>
    intro m sc
    rw [List.foldl_cons, ih, mem_map_fst_insertAssoc]
    simp only [List.map_cons, List.mem_cons]
    tauto

theorem helperStep_argInfo_keys (h : Helper) (svc : ServiceInfo)
    (inv : ∀ sc : String × String, sc ∈ h.argInfo.map Prod.fst →
      sc.1 ∈ h.commands.map Prod.fst) :
    ∀ sc : String × String, sc ∈ (helperStep h svc).argInfo.map Prod.fst →
      sc.1 ∈ (helperStep h svc).commands.map Prod.fst := by
  intro sc hmem
  simp only [helperStep] at hmem ⊢
  rw [mem_argInfo_foldl] at hmem
  rw [mem_map_fst_insertAssoc]
  rcases hmem with hnew | hold
  · left
    simp only [List.mem_map] at hnew
    obtain ⟨cmd, _, hcmd⟩ := hnew
    rw [← hcmd]
  · right
    exact inv sc hold

theorem helperFromServices_argInfo_keys (svcs : List ServiceInfo) :
    ∀ sc : String × String, sc ∈ (helperFromServices svcs).argInfo.map Prod.fst →
      sc.1 ∈ (helperFromServices svcs).commands.map Prod.fst := by
  suffices aux : ∀ (l : List ServiceInfo) (h0 : Helper),
      (∀ sc : String × String, sc ∈ h0.argInfo.map Prod.fst →
        sc.1 ∈ h0.commands.map Prod.fst) →
      ∀ sc : String × String, sc ∈ (l.foldl helperStep h0).argInfo.map Prod.fst →
        sc.1 ∈ (l.foldl helperStep h0).commands.map Prod.fst by
    exact aux svcs ⟨[], []⟩ (by intro sc hsc; simp at hsc)
  intro l
  induction l with
  | nil => intro h0 inv; exact inv
  | cons svc rest ih =>
    intro h0 inv
    exact ih (helperStep h0 svc) (helperStep_argInfo_keys h0 svc inv)

theorem completeArgsSubOk_true (h : Helper) (slice : List Char) (parts : List String)
    (pos : Nat)
    (hkeys : ∀ sc : String × String, sc ∈ h.argInfo.map Prod.fst →
      sc.1 ∈ h.commands.map Prod.fst)
    (htok : ∀ t ∈ parts, t.length ≤ pos)
    (hcase : lookupAssoc h.commands (parts.getD 0 "") = none ∨
      3 ≤ parts.length ∨ endsWithSpace slice = true) :
    completeArgsSubOk h slice parts pos = true := by
  unfold completeArgsSubOk
  by_cases hlen : 2 ≤ parts.length
  · rw [if_pos hlen]
    cases hai : lookupAssoc h.argInfo (parts.getD 0 "", parts.getD 1 "") with
    | none => simp [hai]
    | some args =>
      simp only [hai]
      rcases hcase with hnone | h3 | hends
      · exfalso
        have hin : (parts.getD 0 "", parts.getD 1 "") ∈ h.argInfo.map Prod.fst := by
          rw [← lookupAssoc_isSome_iff, hai]
          rfl
        have h1 : parts.getD 0 "" ∈ h.commands.map Prod.fst := hkeys _ hin
        rw [← lookupAssoc_isSome_iff, hnone] at h1
        simp at h1
      · by_cases hends : endsWithSpace slice = true
        · simp [hends, hlen]
        · have hends' : endsWithSpace slice = false := by
            simpa using hends
          simp only [hends', if_false, Bool.false_eq_true, Bool.and_eq_true,
            decide_eq_true_eq]
          refine ⟨h3, ?_⟩
          cases hL : parts.getLast? with
          | none => simp
          | some t =>
            simp only [Option.getD_some]
            exact htok t (List.mem_of_mem_getLast? (by simp [hL]))
      · simp [hends, hlen]
  · rw [if_neg hlen]

/-- C8 witness helper is not needed separately; see `c8_witness`. This
theorem: `complete` is total and free of `usize` underflow — on every input
with the cursor inside the line, each subtraction the taken branch evaluates
(`parts.len() - 2`, `parts.len() - 3`, `pos - prefix.len()`) is in bounds,
because the argument branch computes `parts.len() - 3` only when the
`(service, command)` pair is cached (which forces the earlier command-name
branch to have consumed the mid-token two-part case) and every prefix is a
token of the slice before the cursor. -/
theorem c8_complete_no_underflow (svcs : List ServiceInfo) (line : String) (pos : Nat)
    (hpos : pos ≤ line.length) :
    completeSubOk (helperFromServices svcs) line pos = true := by
  have hslice : (line.data.take pos).length ≤ pos := by
    rw [List.length_take]
    omega
  have htok : ∀ t ∈ splitWS (line.data.take pos), t.length ≤ pos :=
    fun t ht => le_trans (length_mem_splitWS _ t ht) hslice
  have hkeys := helperFromServices_argInfo_keys svcs
  simp only [completeSubOk]
  split
  · rename_i hb1
    cases hh : (splitWS (line.data.take pos)).head? with
    | none => simp [hh]
    | some t =>
      simp only [hh, Option.getD_some, decide_eq_true_eq]
      exact htok t (List.mem_of_mem_head? (by simp [hh]))
  · rename_i hb1
    split
    · rename_i hb2
      split
      · rename_i h2
        have h1 : 1 < (splitWS (line.data.take pos)).length := by omega
        simp only [decide_eq_true_eq]
        rw [List.getD_eq_getElem _ _ h1]
        exact htok _ (List.getElem_mem h1)
      · simp
    · rename_i hb2
      split
      · rename_i hb3
        cases hc : lookupAssoc (helperFromServices svcs).commands
            ((splitWS (line.data.take pos)).getD 0 "") with
        | some cmds =>
          simp only [hc]
          split
          · rename_i h2
            have h1 : 1 < (splitWS (line.data.take pos)).length := by omega
            simp only [decide_eq_true_eq]
            rw [List.getD_eq_getElem _ _ h1]
            exact htok _ (List.getElem_mem h1)
          · simp
        | none =>
          simp only [hc]
          exact completeArgsSubOk_true _ _ _ _ hkeys htok (Or.inl hc)
      · rename_i hb3
        refine completeArgsSubOk_true _ _ _ _ hkeys htok ?_
        by_cases hends : endsWithSpace (line.data.take pos) = true
        · exact Or.inr (Or.inr hends)
        · right
          left
          have hends' : endsWithSpace (line.data.take pos) = false := by
            simpa using hends
          simp only [hends', Bool.not_false, Bool.and_true, Bool.or_eq_true,
            Bool.and_eq_true, decide_eq_true_eq, List.isEmpty_iff, not_or] at hb1 hb3
          have hne : (splitWS (line.data.take pos)).length ≠ 0 := by
            intro h0
            exact hb1.1 (List.length_eq_zero.mp h0)
          omega

/-- C8 witness: a concrete line that reaches the argument branch mid-token. -/
theorem c8_witness :
    completeSubOk (helperFromServices fixtureCatalog) "volume create x" 15 = true :=
  c8_complete_no_underflow fixtureCatalog "volume create x" 15 (by decide)

end Nexus
